import Mathlib

/-!
# Verification of the rule-based code translator core

Shallow embedding, in Lean 4, of the translator core of the
`ai_code_translator` repository:

* `ai_code_translator/structure_handler.py` — structural extraction
  (`StructureHandler.analyze_module`, `_is_javascript`,
  `_preprocess_javascript`, `_analyze_class`, `_analyze_method`);
* `ai_code_translator/style_handler.py` — style detection and application
  (`_detect_quote_style`, `_detect_naming_convention`,
  `_detect_bracket_style`, `_apply_indentation`, `_apply_quote_style`,
  `_apply_naming_convention`);
* `ai_code_translator/data_cleaner.py` — the ordered token-substitution
  tables (`CodeCleaner.__init__`, `translate_syntax`);
* `ai_code_translator/transformer_translator.py` — the rule-based renderer
  (`TransformerTranslator._rule_based_translate`).

Python strings are modelled as `List Char` (with `String` wrappers at the
statement level); Python's `re` module is modelled by bespoke scanners, one
per regular expression appearing in the source, each documented with the
regex it implements; Python's `ast` module is modelled by a small abstract
syntax tree restricted to the node kinds the analysed functions inspect.
-/

namespace CodeTranslator

/-! ## Python string primitives

Character-level models of the Python `str` operations used by the
translator.  Python's `\s`, `str.strip`, `str.isspace` use this whitespace
set (ASCII fragment); `\w` is `[A-Za-z0-9_]` (ASCII fragment). -/

/-- Python whitespace (ASCII): space, tab, newline, carriage return,
form feed, vertical tab. -/
def pySpace (c : Char) : Bool :=
  c = ' ' || c = '\t' || c = '\n' || c = '\x0d' || c = '\x0c' || c = '\x0b'

/-- ASCII lowercase letter. -/
def asciiLower (c : Char) : Bool := 'a' ≤ c && c ≤ 'z'

/-- ASCII uppercase letter. -/
def asciiUpper (c : Char) : Bool := 'A' ≤ c && c ≤ 'Z'

/-- ASCII letter. -/
def asciiAlpha (c : Char) : Bool := asciiLower c || asciiUpper c

/-- ASCII digit. -/
def asciiDigit (c : Char) : Bool := '0' ≤ c && c ≤ '9'

/-- Python `\w` (ASCII fragment): letters, digits, underscore. -/
def wordChar (c : Char) : Bool := asciiAlpha c || asciiDigit c || c = '_'

/-- Lowercase an ASCII character (model of `str.lower` per character). -/
def charLower (c : Char) : Char :=
  if asciiUpper c then Char.ofNat (c.toNat + 32) else c

/-- Uppercase an ASCII character (model of `str.upper` per character). -/
def charUpper (c : Char) : Char :=
  if asciiLower c then Char.ofNat (c.toNat - 32) else c

/-- Python `str.lstrip()` (no argument): drop leading whitespace. -/
def pyLstrip (l : List Char) : List Char := l.dropWhile pySpace

/-- Python `str.rstrip()` (no argument): drop trailing whitespace. -/
def pyRstrip (l : List Char) : List Char :=
  (l.reverse.dropWhile pySpace).reverse

/-- Python `str.strip()`: drop whitespace at both ends. -/
def pyStrip (l : List Char) : List Char := pyRstrip (pyLstrip l)

/-- `len(line) - len(line.lstrip())`: the number of leading whitespace
characters of a line. -/
def leadingWs (l : List Char) : Nat := (l.takeWhile pySpace).length

/-- A line is blank when `not line.strip()` holds in Python. -/
def isBlank (l : List Char) : Bool := pyStrip l = []

/-- Python `str.split('\n')`: split on every newline; the result is
always non-empty and its elements contain no newline. -/
def splitNl (l : List Char) : List (List Char) :=
  match l with
  | [] => [[]]
  | c :: rest =>
    if c = '\n' then [] :: splitNl rest
    else
      match splitNl rest with
      | [] => [[c]]
      | line :: lines => (c :: line) :: lines

/-- Python `'\n'.join(lines)`. -/
def joinNl (ls : List (List Char)) : List Char :=
  match ls with
  | [] => []
  | [l] => l
  | l :: rest => l ++ '\n' :: joinNl rest

/-- Python `sub in s` (substring containment) — used for pattern guards. -/
def containsSub (sub s : List Char) : Bool :=
  match s with
  | [] => sub.isEmpty
  | _ :: rest => sub.isPrefixOf s || containsSub sub rest

/-- Python `str.replace(old, new)` with non-empty `old`: replace all
non-overlapping occurrences, scanning left to right.  Structured with
explicit fuel (one unit per character of the scanned string) so that the
definition is structurally recursive and computes by `rfl`/`decide`; each
step consumes at least one character, so `s.length` fuel is exact. -/
def strReplaceF (fuel : Nat) (old new s : List Char) : List Char :=
  match fuel, s with
  | 0, s => s
  | _, [] => []
  | fuel + 1, c :: rest =>
    if old ≠ [] ∧ old.isPrefixOf (c :: rest) then
      new ++ strReplaceF fuel old new ((c :: rest).drop old.length)
    else
      c :: strReplaceF fuel old new rest

/-- Python `str.replace(old, new)` (non-empty `old`). -/
def strReplace (old new s : List Char) : List Char :=
  strReplaceF s.length old new s

/-- Count occurrences of a character. -/
def countChar (ch : Char) (l : List Char) : Nat :=
  l.countP (· = ch)

/-! ## `structure_handler.py`: the Python AST model

Model of the fragment of Python's `ast` node hierarchy that
`StructureHandler` inspects: `Module`, `ClassDef`, `FunctionDef`,
`AsyncFunctionDef`, `Assign`, `Return`, `Expr` (expression statement),
`Pass`, and the expressions `Name` (with a store/load context flag),
`Constant`.  Fields the handler never reads on the claims under study
(decorators, bases, annotations, docstrings) are omitted. -/

/-- Python expressions (fragment). `name` carries `isStore = true` when its
context is `ast.Store`. -/
inductive PyExpr where
  | name (id : String) (isStore : Bool)
  | num (n : Int)
  | strLit (s : String)

/-- Python statements (fragment).  `funcDef` models `ast.FunctionDef` and
`asyncFuncDef` models `ast.AsyncFunctionDef`; in Python these are distinct
classes and `isinstance(node, ast.FunctionDef)` is false for async
definitions. -/
inductive PyStmt where
  | assign (target : PyExpr) (value : PyExpr)
  | funcDef (name : String) (args : List String) (body : List PyStmt)
  | asyncFuncDef (name : String) (args : List String) (body : List PyStmt)
  | classDef (name : String) (body : List PyStmt)
  | pass
  | exprStmt (e : PyExpr)
  | ret (e : PyExpr)

/-- A node of the tree, as visited by `ast.walk`: the module root, a
statement, or an expression. -/
inductive PyNode where
  | mod (body : List PyStmt)
  | stmt (s : PyStmt)
  | expr (e : PyExpr)

/-- `ast.iter_child_nodes`: the direct children of a node. -/
def children : PyNode → List PyNode
  | .mod body => body.map .stmt
  | .stmt (.assign t v) => [.expr t, .expr v]
  | .stmt (.funcDef _ _ body) => body.map .stmt
  | .stmt (.asyncFuncDef _ _ body) => body.map .stmt
  | .stmt (.classDef _ body) => body.map .stmt
  | .stmt .pass => []
  | .stmt (.exprStmt e) => [.expr e]
  | .stmt (.ret e) => [.expr e]
  | .expr _ => []

mutual

/-- Size of a statement, used for the termination of the walk. -/
def stmtSize : PyStmt → Nat
  | .assign _ _ => 5
  | .funcDef _ _ body => 3 + stmtsSize body
  | .asyncFuncDef _ _ body => 3 + stmtsSize body
  | .classDef _ body => 3 + stmtsSize body
  | .pass => 1
  | .exprStmt _ => 2
  | .ret _ => 2

/-- Size of a statement list, used for the termination of the walk. -/
def stmtsSize : List PyStmt → Nat
  | [] => 0
  | s :: rest => stmtSize s + stmtsSize rest

end

theorem stmtsSize_eq (body : List PyStmt) :
    stmtsSize body = (body.map stmtSize).sum := by
  induction body with
  | nil => simp [stmtsSize]
  | cons s rest ih => simp [stmtsSize, ih]

/-- Size of a node, used for the termination of the walk. -/
def nodeSize : PyNode → Nat
  | .mod body => 3 + stmtsSize body
  | .stmt s => stmtSize s
  | .expr _ => 1

theorem map_nodeSize_stmt (body : List PyStmt) :
    ((body.map PyNode.stmt).map nodeSize).sum = stmtsSize body := by
  rw [stmtsSize_eq]
  simp [List.map_map]
  rfl

theorem children_nodeSize_lt (n : PyNode) :
    ((children n).map nodeSize).sum < nodeSize n := by
  cases n with
  | mod body =>
    rw [children, map_nodeSize_stmt]
    simp [nodeSize]
  | stmt s =>
    cases s with
    | assign t v => simp [children, nodeSize, stmtSize]
    | funcDef nm args body =>
      rw [children, map_nodeSize_stmt]
      simp [nodeSize, stmtSize]
    | asyncFuncDef nm args body =>
      rw [children, map_nodeSize_stmt]
      simp [nodeSize, stmtSize]
    | classDef nm body =>
      rw [children, map_nodeSize_stmt]
      simp [nodeSize, stmtSize]
    | pass => simp [children, nodeSize, stmtSize]
    | exprStmt e => simp [children, nodeSize, stmtSize]
    | ret e => simp [children, nodeSize, stmtSize]
  | expr e => simp [children, nodeSize]

/-- `ast.walk` with the parent annotation of `analyze_module`
(lines 53–56 of `structure_handler.py`): a traversal yielding every node
paired with its parent (`none` for the root).  `ast.walk` is
breadth-first; the traversal order affects only the ordering of the
collected lists, and none of the verified statements depend on it. -/
def walkBFS (queue : List (PyNode × Option PyNode)) :
    List (PyNode × Option PyNode) :=
  match queue with
  | [] => []
  | (n, p) :: rest =>
    (n, p) :: walkBFS (rest ++ (children n).map (fun c => (c, some n)))
termination_by (queue.map (fun q => nodeSize q.1)).sum
decreasing_by
  have h := children_nodeSize_lt n
  have heq : List.map ((fun (q : PyNode × Option PyNode) => nodeSize q.1) ∘
      fun c => (c, some n)) (children n) = List.map nodeSize (children n) := rfl
  simp only [List.map_append, List.sum_append, List.map_map, List.map_cons,
    List.sum_cons, heq]
  omega

/-- `MethodInfo` (fields used by the claims; `returns`, `docstring`,
`decorators`, `body` — which the source renders via `ast.unparse` — are
omitted as no claim depends on them). -/
structure MethodInfo where
  name : String
  args : List String
  is_async : Bool
deriving DecidableEq, Repr

/-- `ClassInfo` (same field policy; `methods` is the insertion sequence of
the Python dict `name → MethodInfo`). -/
structure ClassInfo where
  name : String
  methods : List (String × MethodInfo)
deriving DecidableEq, Repr

/-- `ModuleInfo` (same field policy; `imports`, produced by the external
`CodeAnalyzer`, is omitted). -/
structure ModuleInfo where
  name : String
  classes : List (String × ClassInfo)
  functions : List String
  globals : List String
deriving DecidableEq, Repr

/-- `StructureHandler._analyze_method`: the argument list skips `self`,
and `is_async = isinstance(node, ast.AsyncFunctionDef)`. -/
def analyzeMethod : PyStmt → MethodInfo
  | .funcDef n args _ =>
    { name := n, args := args.filter (· ≠ "self"), is_async := false }
  | .asyncFuncDef n args _ =>
    { name := n, args := args.filter (· ≠ "self"), is_async := true }
  | _ => { name := "", args := [], is_async := false }

/-- `StructureHandler._analyze_class`: scan the class body for
`ast.FunctionDef` children only (async definitions are a different class
and are skipped), keyed by method name. -/
def analyzeClass (name : String) (body : List PyStmt) : ClassInfo :=
  { name := name
    methods := body.filterMap fun child =>
      match child with
      | .funcDef _ _ _ =>
        some ((analyzeMethod child).name, analyzeMethod child)
      | _ => none }

/-- Is the parent an `ast.ClassDef`? (`analyze_module`, line 72). -/
def isClassDefParent : Option PyNode → Bool
  | some (.stmt (.classDef _ _)) => true
  | _ => false

/-- Selector for the `ast.ClassDef` arm of the walk loop
(`analyze_module`, lines 67–69). -/
def classSel (np : PyNode × Option PyNode) : Option (String × ClassInfo) :=
  match np.1 with
  | .stmt (.classDef n b) => some (n, analyzeClass n b)
  | _ => none

/-- Selector for the `ast.FunctionDef` arm of the walk loop
(`analyze_module`, lines 70–73): skip methods, whose parent is a
`ClassDef`. -/
def funcSel (np : PyNode × Option PyNode) : Option String :=
  match np.1 with
  | .stmt (.funcDef n _ _) =>
    if isClassDefParent np.2 then none else some n
  | _ => none

/-- Selector for the `ast.Name`-with-`Store`-context arm of the walk loop
(`analyze_module`, lines 74–77): collect the identifier when the node's
parent is the `ast.Module` node itself. -/
def globSel (np : PyNode × Option PyNode) : Option String :=
  match np with
  | (.expr (.name id true), some (.mod _)) => some id
  | _ => none

/-- `StructureHandler.analyze_module` on an already-parsed tree:
walk every node; collect classes, module-level functions (those whose
parent is not a `ClassDef`), and the names stored directly under the
`Module` node (lines 66–77 of `structure_handler.py`). -/
def analyzeModuleAst (moduleName : String) (body : List PyStmt) : ModuleInfo :=
  let nodes := walkBFS [(.mod body, none)]
  { name := moduleName
    classes := nodes.filterMap classSel
    functions := nodes.filterMap funcSel
    globals := nodes.filterMap globSel }

/-! ## `transformer_translator.py`: `_rule_based_translate`

Model of `TransformerTranslator._rule_based_translate`
(lines 424–513).  Python's `str.find` (returning `-1` on failure) and
slice semantics (negative indices counted from the end, out-of-range
clamped) are modelled exactly. -/

/-- Python `str.find(sub)`: index of the first occurrence, `-1` if none. -/
def pyFind (sub s : List Char) : Int :=
  match s with
  | [] => if sub.isEmpty then 0 else -1
  | _ :: rest =>
    if sub.isPrefixOf s then 0
    else
      let r := pyFind sub rest
      if r = -1 then -1 else r + 1

/-- Python slice `s[i:j]` with `Int` bounds: negative indices count from
the end, then both are clamped to `[0, len]`. -/
def pySlice (s : List Char) (i j : Int) : List Char :=
  let n : Int := s.length
  let start := if i < 0 then max (n + i) 0 else min i n
  let stop := if j < 0 then max (n + j) 0 else min j n
  if start < stop then
    (s.take stop.toNat).drop start.toNat
  else []

/-- `"    " * (indent_level // 4)`. -/
def indentSpaces (lvl : Nat) : List Char :=
  List.replicate (lvl / 4 * 4) ' '

/-- `stripped[stripped.find("(") + 1:stripped.find(")")]
.replace("self, ", "").replace("self", "").strip()` — the parameter
extraction shared by the constructor and method branches. -/
def extractParams (stripped : List Char) : List Char :=
  pyStrip (strReplace "self".toList [] (strReplace "self, ".toList []
    (pySlice stripped (pyFind ['('] stripped + 1) (pyFind [')'] stripped))))

/-- The dedent loop
`while indent < indent_level: indent_level -= 4; js_lines.append(...)`,
with fuel (the loop runs at most `indent_level / 4 + 1` times, so
`indent_level` fuel is ample). -/
def closeBracesF (fuel : Nat) (indent lvl : Nat) (acc : List (List Char)) :
    Nat × List (List Char) :=
  match fuel with
  | 0 => (lvl, acc)
  | fuel + 1 =>
    if indent < lvl then
      closeBracesF fuel indent (lvl - 4) (acc ++ [indentSpaces (lvl - 4) ++ ['}']])
    else (lvl, acc)

/-- One iteration of the python→javascript loop of
`_rule_based_translate` (lines 434–499), operating on the accumulated
`(indent_level, js_lines)` state. -/
def rbStep (state : Nat × List (List Char)) (line : List Char) :
    Nat × List (List Char) :=
  let (lvl0, acc0) := state
  let stripped := pyStrip line
  if stripped = [] then (lvl0, acc0 ++ [[]])
  else
    let indent := line.length - (pyLstrip line).length
    let (lvl, acc) := closeBracesF lvl0 indent lvl0 acc0
    if "class ".toList.isPrefixOf stripped then
      let className :=
        pyStrip ((pySlice stripped 6 stripped.length).takeWhile (· ≠ '(')
          |>.takeWhile (· ≠ ':'))
      (lvl + 4, acc ++ [indentSpaces lvl ++ "class ".toList ++ className ++ " \x7b".toList])
    else if "def __init__".toList.isPrefixOf stripped then
      (lvl + 4, acc ++ [indentSpaces lvl ++ "constructor(".toList ++
        extractParams stripped ++ ") \x7b".toList])
    else if "def __iter__".toList.isPrefixOf stripped then
      (lvl, acc ++ [indentSpaces lvl ++ "[Symbol.iterator]() \x7b\x7b".toList,
        indentSpaces lvl ++ "    return this;".toList,
        indentSpaces lvl ++ "\x7d\x7d".toList])
    else if "def __next__".toList.isPrefixOf stripped then
      (lvl + 4, acc ++ [indentSpaces lvl ++ "next() \x7b\x7b".toList])
    else if "def ".toList.isPrefixOf stripped then
      let methodName := pyStrip (pySlice stripped 4 (pyFind ['('] stripped))
      (lvl + 4, acc ++ [indentSpaces lvl ++ methodName ++ ['('] ++
        extractParams stripped ++ ") \x7b".toList])
    else if "return ".toList.isPrefixOf stripped then
      (lvl, acc ++ [indentSpaces lvl ++
        strReplace "self.".toList "this.".toList stripped ++ [';']])
    else if "self.".toList.isPrefixOf stripped then
      (lvl, acc ++ [indentSpaces lvl ++
        strReplace "self.".toList "this.".toList stripped ++ [';']])
    else if "raise StopIteration".toList.isPrefixOf stripped then
      (lvl, acc ++ [indentSpaces lvl ++ "return undefined;".toList])
    else if "if ".toList.isPrefixOf stripped then
      (lvl + 4, acc ++ [indentSpaces lvl ++
        strReplace "len(self.array)".toList "this.array.length".toList
          (strReplace [':'] " \x7b\x7b".toList stripped)])
    else
      (lvl, acc ++ [indentSpaces lvl ++
        strReplace "self.".toList "this.".toList stripped ++ [';']])

/-- The python→javascript body of `_rule_based_translate`
(lines 426–506): iterate over the source lines, then close the remaining
open indentation levels. -/
def pyToJs (sourceCode : List Char) : List Char :=
  let lines := splitNl sourceCode
  let (lvl, acc) := lines.foldl rbStep (0, [])
  let (_, acc) := closeBracesF lvl 0 lvl acc
  joinNl acc

/-- `TransformerTranslator._rule_based_translate` (lines 424–513): the
python→javascript line rewriter; the javascript→python branch returns a
fixed placeholder comment as a *successful* result; any other pair raises
`ValueError` (modelled as the `Except.error` case) whose message names
both languages. -/
def ruleBasedTranslate (sourceLang targetLang sourceCode : String) :
    Except String String :=
  if sourceLang = "python" ∧ targetLang = "javascript" then
    .ok (String.mk (pyToJs sourceCode.toList))
  else if sourceLang = "javascript" ∧ targetLang = "python" then
    .ok ("# Translation from JavaScript to Python is not yet implemented\n" ++
      "# Please implement this part of the code")
  else
    .error ("Unsupported language pair: " ++ sourceLang ++ " -> " ++ targetLang)

/-! ## `style_handler.py`: style detection

Bespoke scanners, one per regular expression of the source.  Each scanner
is structured with explicit fuel (one unit per scanned character) so that
it is structurally recursive and computes by `rfl`/`decide`; in every use
the fuel equals the scanned string's length, which is ample because every
recursive step consumes at least one character. -/

/-- Parse the inside of a string literal after its opening delimiter `d`,
per the regex body `[^d\\]*(?:\\.[^d\\]*)*d`: content characters are
anything but `d` and backslash; a backslash must be followed by a
non-newline character (`.` does not match newline); the literal ends at
the un-escaped closing `d`.  The character classes are disjoint, so the
regex engine's backtracking never revisits a choice and this deterministic
scan is equivalent.  Returns `(content, remainder-after-the-closing-d)`. -/
def parseStrLit (fuel : Nat) (d : Char) (s : List Char) :
    Option (List Char × List Char) :=
  match fuel with
  | 0 => none
  | fuel + 1 =>
    let pre := s.takeWhile (fun c => !(c = d) && !(c = '\\'))
    let t := s.dropWhile (fun c => !(c = d) && !(c = '\\'))
    match t with
    | [] => none
    | c :: r =>
      if c = d then some (pre, r)
      else
        match r with
        | [] => none
        | e :: r2 =>
          if e = '\n' then none
          else
            match parseStrLit fuel d r2 with
            | some (content, rem) => some (pre ++ c :: e :: content, rem)
            | none => none

/-- `len(re.findall(r"(?<!\\)d[^d\\]*(?:\\.[^d\\]*)*d", code))` for a
delimiter `d` (`_detect_quote_style`, lines 149–150): count
non-overlapping string literals whose opening delimiter is not preceded by
a backslash; scanning resumes after each complete literal, or one
character further on failure. -/
def countQuoteLitsGo (fuel : Nat) (d : Char) (prev : Option Char)
    (s : List Char) : Nat :=
  match fuel with
  | 0 => 0
  | fuel + 1 =>
    match s with
    | [] => 0
    | c :: rest =>
      if c = d ∧ prev ≠ some '\\' then
        match parseStrLit rest.length d rest with
        | some (_, rem) => 1 + countQuoteLitsGo fuel d (some d) rem
        | none => countQuoteLitsGo fuel d (some c) rest
      else countQuoteLitsGo fuel d (some c) rest

/-- Number of `d`-delimited string literals in the text. -/
def countQuoteLits (d : Char) (s : List Char) : Nat :=
  countQuoteLitsGo s.length d none s

/-- `StyleHandler._detect_quote_style` (lines 146–156): count single- and
double-quoted literals; when both counts are zero return the configured
default; otherwise `'single'` exactly when the single count is strictly
greater, else `'double'`. -/
def detectQuoteStyle (configQuote : String) (code : String) : String :=
  let singleQuotes := countQuoteLits '\'' code.toList
  let doubleQuotes := countQuoteLits '"' code.toList
  if singleQuotes = 0 ∧ doubleQuotes = 0 then configQuote
  else if singleQuotes > doubleQuotes then "single" else "double"

/-- The maximal `\w`-runs of the text, in order.  A run matches
`\b[a-zA-Z_]\w*\b` exactly when its first character is a letter or an
underscore: `\b` holds only at the ends of a maximal run (there is no word
boundary inside one), so `re.findall(r"\b[a-zA-Z_]\w*\b", code)` returns
precisely the maximal runs that do not start with a digit. -/
def wordRuns (fuel : Nat) (s : List Char) : List (List Char) :=
  match fuel with
  | 0 => []
  | fuel + 1 =>
    match s with
    | [] => []
    | c :: rest =>
      if wordChar c then
        ((c :: rest).takeWhile wordChar) ::
          wordRuns fuel ((c :: rest).dropWhile wordChar)
      else wordRuns fuel rest

/-- `re.findall(r"\b[a-zA-Z_]\w*\b", code)`
(`_detect_naming_convention`, line 161). -/
def findNames (s : List Char) : List (List Char) :=
  (wordRuns s.length s).filter fun run =>
    match run with
    | c :: _ => asciiAlpha c || c = '_'
    | [] => false

/-- The keyword/builtin exclusion set of `_detect_naming_convention`
(lines 164–165). -/
def namingKeywords : List (List Char) :=
  ["def".toList, "class".toList, "if".toList, "else".toList,
   "while".toList, "for".toList, "try".toList, "except".toList,
   "return".toList, "import".toList, "from".toList, "function".toList,
   "var".toList, "let".toList, "const".toList, "new".toList,
   "this".toList, "super".toList, "extends".toList, "constructor".toList]

/-- Python `str.islower()`: at least one cased character, and every cased
character lowercase (ASCII model: cased = letter). -/
def pyStrIslower (l : List Char) : Bool :=
  l.any asciiAlpha && l.all fun c => !asciiAlpha c || asciiLower c

/-- Python `str.isupper()`. -/
def pyStrIsupper (l : List Char) : Bool :=
  l.any asciiAlpha && l.all fun c => !asciiAlpha c || asciiUpper c

/-- The classification/count loop of `_detect_naming_convention`
(lines 172–186), folded over the filtered names; the state is
`(snake_case, camel_case, pascal_case)`. camelCase matches add 2
("give extra weight to camelCase in JavaScript"). -/
def namingStep (counts : Nat × Nat × Nat) (name : List Char) :
    Nat × Nat × Nat :=
  let (snake, camel, pascal) := counts
  if name.contains '_' ∧ pyStrIslower name then (snake + 1, camel, pascal)
  else if (name.headD ' ' |> asciiUpper) ∧ ¬name.contains '_' then
    (snake, camel, pascal + 1)
  else if (name.headD ' ' |> asciiLower) ∧ ¬name.contains '_' ∧
      name.tail.any asciiUpper then
    (snake, camel + 2, pascal)
  else if pyStrIslower name then (snake + 1, camel, pascal)
  else if pyStrIsupper name then (snake + 1, camel, pascal)
  else (snake, camel, pascal)

/-- `StyleHandler._detect_naming_convention` (lines 158–195): tokenize,
exclude keywords and `__`-prefixed names, count with the weighted loop,
and take `max` over the dict `{snake_case, camelCase, PascalCase}` —
Python's `max` keeps the *first* item of the insertion order on ties. -/
def detectNamingConvention (configNaming : String) (code : String) : String :=
  let names := (findNames code.toList).filter fun n =>
    !namingKeywords.contains n && !("__".toList.isPrefixOf n)
  if names = [] then configNaming
  else
    let (snake, camel, pascal) := names.foldl namingStep (0, 0, 0)
    if camel > snake then
      if pascal > camel then "PascalCase" else "camelCase"
    else
      if pascal > snake then "PascalCase" else "snake_case"

/-- `len(re.findall(r"\)\s*{", code))` and
`len(re.findall(r"\)\s*\n\s*{", code))` (`_detect_bracket_style`,
lines 215–216), by one scanner parameterized on whether a newline is
required inside the whitespace run.  The greedy `\s*` must stop at `{`,
which is not whitespace, so the only candidate span runs from `)` through
the maximal whitespace run to an immediately following `{`; the second
pattern additionally requires a newline inside that run, and both match
spans end at the same `{`, after which scanning resumes. -/
def countParenBraceGo (fuel : Nat) (requireNl : Bool) (s : List Char) : Nat :=
  match fuel with
  | 0 => 0
  | fuel + 1 =>
    match s with
    | [] => 0
    | c :: rest =>
      if c = ')' then
        let run := rest.takeWhile pySpace
        let r := rest.dropWhile pySpace
        match r with
        | '{' :: r2 =>
          if !requireNl || run.contains '\n' then
            1 + countParenBraceGo fuel requireNl r2
          else countParenBraceGo fuel requireNl rest
        | _ => countParenBraceGo fuel requireNl rest
      else countParenBraceGo fuel requireNl rest

/-- `StyleHandler._detect_bracket_style` (lines 212–218):
`'same_line' if same_line >= new_line else 'new_line'`. -/
def detectBracketStyle (code : String) : String :=
  let sameLine := countParenBraceGo code.toList.length false code.toList
  let newLine := countParenBraceGo code.toList.length true code.toList
  if sameLine ≥ newLine then "same_line" else "new_line"

/-! ## `style_handler.py`: `_apply_indentation` -/

/-- First pass of `_apply_indentation` (lines 226–233): the indentation
of the first non-blank line, `0` if there is none. -/
def baseIndent (lines : List (List Char)) : Nat :=
  match lines with
  | [] => 0
  | l :: rest => if isBlank l then baseIndent rest else leadingWs l

/-- Second pass of `_apply_indentation` (lines 236–252), one line: keep
blank lines; re-emit a line indented at least as much as the base at
`base + ((original - base) // 4) * size` spaces ("assume original indent
was 4 spaces"); preserve the (space-converted) indentation of a line
shallower than the base. -/
def indentLine (b size : Nat) (l : List Char) : List Char :=
  if isBlank l then l
  else
    let o := l.length - (pyLstrip l).length
    if o ≥ b then
      List.replicate (b + (o - b) / 4 * size) ' ' ++ pyLstrip l
    else
      List.replicate o ' ' ++ pyLstrip l

/-- `StyleHandler._apply_indentation` (lines 220–254) at the lines level. -/
def applyIndentationLines (lines : List (List Char)) (size : Nat) :
    List (List Char) :=
  lines.map (indentLine (baseIndent lines) size)

/-- `StyleHandler._apply_indentation` (lines 220–254). -/
def applyIndentation (code : String) (size : Nat) : String :=
  String.mk (joinNl (applyIndentationLines (splitNl code.toList) size))

/-! ## `style_handler.py`: `_apply_quote_style` -/

/-- `replace_quotes` (lines 328–336): wrap the captured content in the
target quote, escaping interior target quotes and unescaping interior
quotes of the other kind. -/
def replaceQuotes (quoteStyle : String) (content : List Char) : List Char :=
  let q : Char := if quoteStyle = "single" then '\'' else '"'
  let other : Char := if q = '\'' then '"' else '\''
  let c1 := strReplace [q] ['\\', q] content
  let c2 := strReplace ['\\', other] [other] c1
  q :: c2 ++ [q]

/-- `re.sub` of a string-literal pattern `d([^d\\]*(?:\\.[^d\\]*)*)d`
with the `replace_quotes` function (lines 339–347): these patterns carry
no look-behind, so every position is a candidate opening delimiter. -/
def subQuoteLitsGo (fuel : Nat) (d : Char) (quoteStyle : String)
    (s : List Char) : List Char :=
  match fuel with
  | 0 => s
  | fuel + 1 =>
    match s with
    | [] => []
    | c :: rest =>
      if c = d then
        match parseStrLit rest.length d rest with
        | some (content, rem) =>
          replaceQuotes quoteStyle content ++ subQuoteLitsGo fuel d quoteStyle rem
        | none => c :: subQuoteLitsGo fuel d quoteStyle rest
      else c :: subQuoteLitsGo fuel d quoteStyle rest

/-- `re.sub(r"OPENER\s*d([^d]*)d", r"OPENER 'q\1q'", code)` — the
comment-literal rewrites of lines 350–355, parameterized by the comment
opener (`//` or `/*`), the quote `d` being sought and the target quote
`q`.  The greedy `\s*` must stop at `d`, which is not whitespace, and the
content class `[^d]` excludes only `d`, so the scan is deterministic; the
replacement normalizes the whitespace run to one space, as the literal
replacement templates do. -/
def subCommentQuotedGo (fuel : Nat) (opener : List Char) (d q : Char)
    (s : List Char) : List Char :=
  match fuel with
  | 0 => s
  | fuel + 1 =>
    match s with
    | [] => []
    | c :: rest =>
      if opener.isPrefixOf (c :: rest) then
        let after := (c :: rest).drop opener.length
        let r := after.dropWhile pySpace
        match r with
        | x :: r2 =>
          if x = d then
            let content := r2.takeWhile (· ≠ d)
            match r2.dropWhile (· ≠ d) with
            | _ :: r3 =>
              opener ++ ' ' :: q :: content ++ q ::
                subCommentQuotedGo fuel opener d q r3
            | [] => c :: subCommentQuotedGo fuel opener d q rest
          else c :: subCommentQuotedGo fuel opener d q rest
        | [] => c :: subCommentQuotedGo fuel opener d q rest
      else c :: subCommentQuotedGo fuel opener d q rest

/-- Largest position `p < stop` with `l[p] = '\n'`. -/
def lastNewlineBefore (l : List Char) (stop : Nat) : Option Nat :=
  ((List.range stop).filter fun p => l.getD p ' ' = '\n').getLast?

/-- `re.sub(r"(//\s*)([^\"\']+)$", …, code, flags=re.MULTILINE)`
(lines 358–360): add target quotes around the tail of a `//` comment that
contains no quote of either kind.  Both `\s*` and the content class
`[^"']` match newlines; with `$` in MULTILINE mode, greedy backtracking
ends the match at the end of the string when no quote character follows
the `//`, and otherwise at the last newline before the first quote
character; `\s*` then yields just enough characters for the content group
to be non-empty.  The replacement is
`group(1) + q + group(2) + q`. -/
def subAddQuotesGo (fuel : Nat) (q : Char) (s : List Char) : List Char :=
  match fuel with
  | 0 => s
  | fuel + 1 =>
    match s with
    | [] => []
    | c :: rest =>
      if c = '/' ∧ rest.headD ' ' = '/' then
        let after := rest.tail
        let w := (after.takeWhile pySpace).length
        let stop := (after.takeWhile fun ch => !(ch = '"') && !(ch = '\'')).length
        let endPos : Option Nat :=
          if stop = after.length then some after.length
          else lastNewlineBefore after stop
        match endPos with
        | some e =>
          if e ≥ 1 then
            let ws := min w (e - 1)
            '/' :: '/' :: after.take ws ++ q :: ((after.drop ws).take (e - ws)) ++
              q :: subAddQuotesGo fuel q (after.drop e)
          else c :: subAddQuotesGo fuel q rest
        | none => c :: subAddQuotesGo fuel q rest
      else c :: subAddQuotesGo fuel q rest

/-- `StyleHandler._apply_quote_style` (lines 323–362): rewrite
double-quoted, single-quoted and template literals to the target quote;
rewrite quoted text in `//` and `/*` comments to the target quote; then
add quotes to unquoted `//`-comment tails. -/
def applyQuoteStyle (code : String) (quoteStyle : String) : String :=
  if ¬(quoteStyle = "single" ∨ quoteStyle = "double") then code
  else
    let q : Char := if quoteStyle = "single" then '\'' else '"'
    let l0 := code.toList
    let l1 := subQuoteLitsGo l0.length '"' quoteStyle l0
    let l2 := subQuoteLitsGo l1.length '\'' quoteStyle l1
    let l3 := subQuoteLitsGo l2.length '`' quoteStyle l2
    let l4 :=
      if quoteStyle = "single" then
        subCommentQuotedGo l3.length "//".toList '"' '\'' l3
      else
        subCommentQuotedGo l3.length "//".toList '\'' '"' l3
    let l5 :=
      if quoteStyle = "single" then
        subCommentQuotedGo l4.length "/*".toList '"' '\'' l4
      else
        subCommentQuotedGo l4.length "/*".toList '\'' '"' l4
    String.mk (subAddQuotesGo l5.length q l5)

/-! ## `style_handler.py`: `_apply_naming_convention` -/

/-- Python `str.split(sep)` for a single-character separator. -/
def splitOnChar (sep : Char) (l : List Char) : List (List Char) :=
  match l with
  | [] => [[]]
  | c :: rest =>
    if c = sep then [] :: splitOnChar sep rest
    else
      match splitOnChar sep rest with
      | [] => [[c]]
      | part :: parts => (c :: part) :: parts

/-- Python `str.title()` (ASCII model): a letter after a non-letter (or at
the start) is uppercased, any other letter is lowercased. -/
def pyTitleGo (prevCased : Bool) (l : List Char) : List Char :=
  match l with
  | [] => []
  | c :: rest =>
    (if asciiAlpha c then (if prevCased then charLower c else charUpper c)
     else c) :: pyTitleGo (asciiAlpha c) rest

/-- Python `str.title()`. -/
def pyTitle (l : List Char) : List Char := pyTitleGo false l

/-- `re.sub(r"(.)([A-Z][a-z]+)", r"\1_\2", name)` (`to_snake_case`,
line 263): any non-newline character followed by an uppercase letter and
at least one lowercase letter gains an underscore; the greedy `[a-z]+`
takes the maximal lowercase run and scanning resumes after it. -/
def subCamel1Go (fuel : Nat) (s : List Char) : List Char :=
  match fuel with
  | 0 => s
  | fuel + 1 =>
    match s with
    | [] => []
    | c :: rest =>
      if c ≠ '\n' then
        match rest with
        | u :: r2 =>
          if asciiUpper u ∧ (r2.takeWhile asciiLower) ≠ [] then
            c :: '_' :: u :: r2.takeWhile asciiLower ++
              subCamel1Go fuel (r2.dropWhile asciiLower)
          else c :: subCamel1Go fuel rest
        | [] => [c]
      else c :: subCamel1Go fuel rest

/-- `re.sub(r"([a-z0-9])([A-Z])", r"\1_\2", s1)` (`to_snake_case`,
line 264). -/
def subCamel2Go (fuel : Nat) (s : List Char) : List Char :=
  match fuel with
  | 0 => s
  | fuel + 1 =>
    match s with
    | [] => []
    | c :: rest =>
      if asciiLower c || asciiDigit c then
        match rest with
        | u :: r2 =>
          if asciiUpper u then c :: '_' :: u :: subCamel2Go fuel r2
          else c :: subCamel2Go fuel rest
        | [] => [c]
      else c :: subCamel2Go fuel rest

/-- `to_snake_case` (lines 261–264). -/
def toSnakeCase (name : List Char) : List Char :=
  (subCamel2Go name.length (subCamel1Go name.length name)).map charLower

/-- `to_camel_case` (lines 266–275). -/
def toCamelCase (name : List Char) : List Char :=
  if name.contains '_' then
    match splitOnChar '_' name with
    | [] => []
    | first :: rest =>
      first.map charLower ++ (rest.map pyTitle).flatten
  else
    match name with
    | c :: rest => if asciiUpper c then charLower c :: rest else name
    | [] => []

/-- `to_pascal_case` (lines 277–286). -/
def toPascalCase (name : List Char) : List Char :=
  let components :=
    if name.contains '_' then splitOnChar '_' name
    else
      splitOnChar '_'
        ((subCamel2Go name.length (subCamel1Go name.length name)).map charLower)
  (components.map pyTitle).flatten

/-- `should_convert_name` (lines 289–292): keep a class name that is
already PascalCase (starts uppercase with a lowercase letter later). -/
def shouldConvertName (name : List Char) (matchType : String) : Bool :=
  !(matchType = "class" && asciiUpper (name.headD ' ') &&
    name.tail.any asciiLower)

/-- `re.sub(r"class\s+([A-Za-z][A-Za-z0-9_]*)", …, code)` with the
class-name replacement lambda (lines 297–299, 307–309): after the literal
`class` a non-empty whitespace run — greedy and deterministic, since the
group's first class excludes whitespace — then the identifier; the
replacement emits `class `, one space, and either the converted or the
kept name, and scanning resumes after the identifier. -/
def subClassNameGo (fuel : Nat) (f : List Char → List Char)
    (s : List Char) : List Char :=
  match fuel with
  | 0 => s
  | fuel + 1 =>
    match s with
    | [] => []
    | c :: rest =>
      if "class".toList.isPrefixOf (c :: rest) then
        let after := (c :: rest).drop 5
        let r := after.dropWhile pySpace
        if (after.takeWhile pySpace) ≠ [] then
          match r with
          | c0 :: r2 =>
            if asciiAlpha c0 then
              let name := c0 :: r2.takeWhile wordChar
              "class ".toList ++
                (if shouldConvertName name "class" then f name else name) ++
                subClassNameGo fuel f (r2.dropWhile wordChar)
            else c :: subClassNameGo fuel f rest
          | [] => c :: subClassNameGo fuel f rest
        else c :: subClassNameGo fuel f rest
      else c :: subClassNameGo fuel f rest

/-- `re.sub(r"\b([A-Za-z][A-Za-z0-9_]*)\b(?![({])", …, code)`
(lines 302–303, 312–314): `\b` holds only at the ends of a maximal
`\w`-run, the group must start with a letter, and the negative look-ahead
rejects a run directly followed by `(` or `{`; a maximal run therefore
either is rewritten whole by the replacement function or kept. -/
def subWordIdentsGo (fuel : Nat) (f : List Char → List Char)
    (s : List Char) : List Char :=
  match fuel with
  | 0 => s
  | fuel + 1 =>
    match s with
    | [] => []
    | c :: rest =>
      if wordChar c then
        let run := (c :: rest).takeWhile wordChar
        let r := (c :: rest).dropWhile wordChar
        let keep := !asciiAlpha c || r.headD ' ' = '(' || r.headD ' ' = '{'
        (if keep then run else f run) ++ subWordIdentsGo fuel f r
      else c :: subWordIdentsGo fuel f rest

/-- `re.sub(r"\b([A-Za-z][A-Za-z0-9_]*)\b(?=\s*[({])", …, code)`
(lines 318–319): as above but with a positive look-ahead — the run must
be followed, after optional whitespace, by `(` or `{`. -/
def subWordIdentsPascalGo (fuel : Nat) (f : List Char → List Char)
    (s : List Char) : List Char :=
  match fuel with
  | 0 => s
  | fuel + 1 =>
    match s with
    | [] => []
    | c :: rest =>
      if wordChar c then
        let run := (c :: rest).takeWhile wordChar
        let r := (c :: rest).dropWhile wordChar
        let next := (r.dropWhile pySpace).headD ' '
        let convert := asciiAlpha c && (next = '(' || next = '{')
        (if convert then f run else run) ++ subWordIdentsPascalGo fuel f r
      else c :: subWordIdentsPascalGo fuel f rest

/-- `StyleHandler._apply_naming_convention` (lines 256–321). -/
def applyNamingConvention (code : String) (convention : String) : String :=
  if ¬(convention = "snake_case" ∨ convention = "camelCase" ∨
      convention = "PascalCase") then code
  else if convention = "snake_case" then
    let l0 := code.toList
    let l1 := subClassNameGo l0.length toSnakeCase l0
    String.mk (subWordIdentsGo l1.length toSnakeCase l1)
  else if convention = "camelCase" then
    let l0 := code.toList
    let l1 := subClassNameGo l0.length toPascalCase l0
    String.mk (subWordIdentsGo l1.length
      (fun n => if !asciiUpper (n.headD ' ') then toCamelCase n else n) l1)
  else
    let l0 := code.toList
    String.mk (subWordIdentsPascalGo l0.length toPascalCase l0)

/-- `StyleConfig` (`style_handler.py`, lines 15–22). -/
structure StyleConfig where
  indent_size : Nat := 4
  max_line_length : Nat := 80
  quote_style : String := "double"
  naming_convention : String := "snake_case"
  bracket_style : String := "same_line"

/-- The style-application pass of `StyleHandler.preserve_style`
(lines 44–54): apply the naming convention, then the indentation, then
the quote style.  (`preserve_style` first runs the external formatters of
`_format_code`; the composed pass verified here is the
re-casing/re-indentation/re-quoting sequence itself.) -/
def applyStylePasses (code : String) (cfg : StyleConfig) : String :=
  applyQuoteStyle
    (applyIndentation (applyNamingConvention code cfg.naming_convention)
      cfg.indent_size)
    cfg.quote_style

/-! ## `data_cleaner.py`: the token-substitution tables

The patterns of `CodeCleaner.py_patterns` and `js_patterns` all have the
shape of a sequence of: literal text, `(\w+)` (greedy, capturing),
`(\d+)` (greedy, capturing), `(.*?)` (lazy, capturing; `.` excludes
newline) and `\s*` (greedy, non-capturing).  They are represented as
token lists over that alphabet and matched by a backtracking matcher with
Python's strategy orders (greedy: longest first; lazy: shortest first).
The `…Try` constructors are the matcher's internal backtracking states
and never appear in the tables themselves. -/

/-- A token of a `py_patterns`/`js_patterns` regular expression. -/
inductive RTok where
  | lit (s : String)
  | word
  | digits
  | lazyAny
  | ws
  | wordTry (k : Nat)
  | digitsTry (k : Nat)
  | lazyTry (k maxK : Nat)
  | wsTry (k : Nat)

/-- Backtracking matcher for a token sequence at the head of `s`,
returning the captured groups (in group order) and the remainder.  The
fuel bounds the recursion depth: a fixed token contributes one frame and
a variable-length token at most `s.length + 1` frames, so the caller's
linear fuel is ample. -/
def matchToks (fuel : Nat) (toks : List RTok) (s : List Char) :
    Option (List String × List Char) :=
  match fuel with
  | 0 => none
  | fuel + 1 =>
    match toks with
    | [] => some ([], s)
    | .lit str :: ts =>
      if str.toList.isPrefixOf s then matchToks fuel ts (s.drop str.length)
      else none
    | .ws :: ts =>
      matchToks fuel (.wsTry (s.takeWhile pySpace).length :: ts) s
    | .wsTry k :: ts =>
      match matchToks fuel ts (s.drop k) with
      | some r => some r
      | none =>
        if k = 0 then none else matchToks fuel (.wsTry (k - 1) :: ts) s
    | .word :: ts =>
      matchToks fuel (.wordTry (s.takeWhile wordChar).length :: ts) s
    | .wordTry k :: ts =>
      if k = 0 then none
      else
        match matchToks fuel ts (s.drop k) with
        | some (gs, rest) => some (String.mk (s.take k) :: gs, rest)
        | none => matchToks fuel (.wordTry (k - 1) :: ts) s
    | .digits :: ts =>
      matchToks fuel (.digitsTry (s.takeWhile asciiDigit).length :: ts) s
    | .digitsTry k :: ts =>
      if k = 0 then none
      else
        match matchToks fuel ts (s.drop k) with
        | some (gs, rest) => some (String.mk (s.take k) :: gs, rest)
        | none => matchToks fuel (.digitsTry (k - 1) :: ts) s
    | .lazyAny :: ts =>
      matchToks fuel (.lazyTry 0 (s.takeWhile (· ≠ '\n')).length :: ts) s
    | .lazyTry k maxK :: ts =>
      match matchToks fuel ts (s.drop k) with
      | some (gs, rest) => some (String.mk (s.take k) :: gs, rest)
      | none =>
        if k = maxK then none
        else matchToks fuel (.lazyTry (k + 1) maxK :: ts) s

/-- A piece of a `re.sub` replacement template: literal text or a
(1-based) group reference `\n`. -/
inductive TmplPart where
  | lit (s : String)
  | grp (n : Nat)

/-- Instantiate a replacement template with the captured groups. -/
def instTmpl (tmpl : List TmplPart) (gs : List String) : List Char :=
  (tmpl.map fun p =>
    match p with
    | .lit s => s.toList
    | .grp n => (gs.getD (n - 1) "").toList).flatten

/-- `re.sub(pattern, replacement, s)` for a token pattern: find the
leftmost match, emit the instantiated replacement, continue after the
match; on no match advance one character.  Every table pattern contains a
non-empty literal, so a match consumes at least one character and
`s.length + 1` fuel is exact. -/
def subPatF (fuel : Nat) (toks : List RTok) (tmpl : List TmplPart)
    (s : List Char) : List Char :=
  match fuel with
  | 0 => s
  | fuel + 1 =>
    match s with
    | [] => []
    | c :: rest =>
      match matchToks (6 * (c :: rest).length + 60) toks (c :: rest) with
      | some (gs, rem) => instTmpl tmpl gs ++ subPatF fuel toks tmpl rem
      | none => c :: subPatF fuel toks tmpl rest

/-- `re.sub(pattern, replacement, s)` for a table pattern. -/
def subPat (toks : List RTok) (tmpl : List TmplPart) (s : List Char) :
    List Char :=
  subPatF (s.length + 1) toks tmpl s

/-- `CodeCleaner.py_patterns` (`data_cleaner.py`, lines 13–37), in dict
insertion order — the order in which `translate_syntax` applies the
rules. -/
def pyPatterns : List (List RTok × List TmplPart) :=
  [([.word, .lit ".append(", .lazyAny, .lit ")"],
    [.grp 1, .lit ".push(", .grp 2, .lit ")"]),
   ([.lit "len(", .lazyAny, .lit ")"],
    [.grp 1, .lit ".length"]),
   ([.word, .lit ".extend(", .lazyAny, .lit ")"],
    [.grp 1, .lit ".push(...", .grp 2, .lit ")"]),
   ([.word, .lit ".keys()"],
    [.lit "Object.keys(", .grp 1, .lit ")"]),
   ([.word, .lit ".values()"],
    [.lit "Object.values(", .grp 1, .lit ")"]),
   ([.word, .lit ".items()"],
    [.lit "Object.entries(", .grp 1, .lit ")"]),
   ([.word, .lit ".join(", .lazyAny, .lit ")"],
    [.grp 2, .lit ".join(", .grp 1, .lit ")"]),
   ([.word, .lit ".strip()"],
    [.grp 1, .lit ".trim()"]),
   ([.word, .lit ".lower()"],
    [.grp 1, .lit ".toLowerCase()"]),
   ([.word, .lit ".upper()"],
    [.grp 1, .lit ".toUpperCase()"]),
   ([.lit "range(", .digits, .lit ")"],
    [.lit "Array.from(\x7blength: ", .grp 1, .lit "\x7d, (_, i) => i)"]),
   ([.lit "range(", .lazyAny, .lit ",", .ws, .lazyAny, .lit ")"],
    [.lit "Array.from(\x7blength: ", .grp 2, .lit "-", .grp 1,
     .lit "\x7d, (_, i) => i+", .grp 1, .lit ")"]),
   ([.lit "[", .lazyAny, .lit " for ", .lazyAny, .lit " in ", .lazyAny,
     .lit "]"],
    [.grp 3, .lit ".map(", .grp 2, .lit " => ", .grp 1, .lit ")"]),
   ([.lit "[", .lazyAny, .lit " for ", .lazyAny, .lit " in ", .lazyAny,
     .lit " if ", .lazyAny, .lit "]"],
    [.grp 3, .lit ".filter(", .grp 2, .lit " => ", .grp 4, .lit ").map(",
     .grp 2, .lit " => ", .grp 1, .lit ")"])]

/-- `CodeCleaner.js_patterns` (`data_cleaner.py`, lines 39–61), in dict
insertion order. -/
def jsPatterns : List (List RTok × List TmplPart) :=
  [([.word, .lit ".push(", .lazyAny, .lit ")"],
    [.grp 1, .lit ".append(", .grp 2, .lit ")"]),
   ([.word, .lit ".length"],
    [.lit "len(", .grp 1, .lit ")"]),
   ([.word, .lit ".splice(", .lazyAny, .lit ")"],
    [.grp 1, .lit "[", .grp 2, .lit "]"]),
   ([.lit "Object.keys(", .lazyAny, .lit ")"],
    [.grp 1, .lit ".keys()"]),
   ([.lit "Object.values(", .lazyAny, .lit ")"],
    [.grp 1, .lit ".values()"]),
   ([.lit "Object.entries(", .lazyAny, .lit ")"],
    [.grp 1, .lit ".items()"]),
   ([.word, .lit ".trim()"],
    [.grp 1, .lit ".strip()"]),
   ([.word, .lit ".toLowerCase()"],
    [.grp 1, .lit ".lower()"]),
   ([.word, .lit ".toUpperCase()"],
    [.grp 1, .lit ".upper()"]),
   ([.lit "Array.from(\x7blength:", .ws, .digits, .lit "\x7d)"],
    [.lit "[None] * ", .grp 1]),
   ([.lit "Array(", .lazyAny, .lit ").fill(", .lazyAny, .lit ")"],
    [.lit "[", .grp 2, .lit "] * ", .grp 1]),
   ([.lit "(", .lazyAny, .lit ")", .ws, .lit "=>", .ws, .lit "\x7b",
     .lazyAny, .lit "\x7d"],
    [.lit "lambda ", .grp 1, .lit ": ", .grp 2])]

/-- `CodeCleaner.translate_syntax` (`data_cleaner.py`, lines 168–175):
pick the table by source language and apply every rule once, in table
order, over the whole text. -/
def translateSyntax (sourceLang : String) (code : String) : String :=
  let patterns := if sourceLang = "python" then pyPatterns else jsPatterns
  String.mk (patterns.foldl (fun acc pr => subPat pr.1 pr.2 acc) code.toList)

/-! ## `structure_handler.py`: `_is_javascript` and `_preprocess_javascript`

For every anchored pattern here the character classes of adjacent parts
are disjoint (whitespace never satisfies `\w`, `{` or `(` are neither),
so the regex engine's backtracking never helps and the deterministic
maximal-munch scan below is equivalent. -/

/-- A child produced by the walk never has the module as parent with an
expression payload: the module's direct children are statements, and no
other node is a module. -/
theorem globSel_children (n c : PyNode) (hc : c ∈ children n) :
    globSel (c, some n) = none := by
  cases n with
  | mod b =>
    simp only [children, List.mem_map] at hc
    obtain ⟨s, _, rfl⟩ := hc
    rfl
  | stmt s =>
    cases c with
    | mod b2 => rfl
    | stmt s2 => rfl
    | expr e =>
      cases e with
      | name id st => cases st <;> rfl
      | num k => rfl
      | strLit v => rfl
  | expr e => simp [children] at hc

theorem walkBFS_globSel_nil :
    ∀ queue, (∀ np ∈ queue, globSel np = none) →
      (walkBFS queue).filterMap globSel = [] := by
  intro queue
  induction queue using walkBFS.induct with
  | case1 => intro _; simp [walkBFS]
  | case2 n p rest ih =>
    intro h
    rw [walkBFS]
    rw [List.filterMap_cons]
    rw [h (n, p) (List.mem_cons_self _ _)]
    apply ih
    intro np hnp
    rcases List.mem_append.mp hnp with hrest | hnew
    · exact h np (List.mem_cons_of_mem _ hrest)
    · simp only [List.mem_map] at hnew
      obtain ⟨c, hc, rfl⟩ := hnew
      exact globSel_children n c hc

/-- Every method record built by `_analyze_class` has `is_async = False`:
only `ast.FunctionDef` children are collected, and on those
`isinstance(node, ast.AsyncFunctionDef)` is false. -/
theorem analyzeClass_not_async (nm : String) (b : List PyStmt)
    (m : String × MethodInfo) (hm : m ∈ (analyzeClass nm b).methods) :
    m.2.is_async = false := by
  simp only [analyzeClass, List.mem_filterMap] at hm
  obtain ⟨child, _, hsel⟩ := hm
  cases child with
  | funcDef n args body =>
    simp only [Option.some.injEq] at hsel
    subst hsel
    rfl
  | assign t v => simp at hsel
  | asyncFuncDef n args body => simp at hsel
  | classDef n body => simp at hsel
  | pass => simp at hsel
  | exprStmt e => simp at hsel
  | ret e => simp at hsel

/-- C1.  `analyze_module` checks whether a `Name` node's parent is the
`Module` node, but a `Name` in store context is always the child of the
binding statement (`ast.Assign`), never of `Module` itself; hence the
`globals` field is the empty list for every parsed module — in particular
for the failing input `x = 1` (the tree
`Module(body=[Assign(targets=[Name('x', Store)], value=Constant(1))])`),
where the claim requires `globals = ["x"]`. -/
theorem analyze_module_globals_empty :
    (analyzeModuleAst "__main__"
        [PyStmt.assign (PyExpr.name "x" true) (PyExpr.num 1)]).globals = []
    ∧ ∀ (nm : String) (body : List PyStmt),
        (analyzeModuleAst nm body).globals = [] := by
  have hgen : ∀ (nm : String) (body : List PyStmt),
      (analyzeModuleAst nm body).globals = [] := by
    intro nm body
    apply walkBFS_globSel_nil
    intro np hnp
    simp only [List.mem_singleton] at hnp
    subst hnp
    rfl
  exact ⟨hgen _ _, hgen⟩

/-- C10.  Every `MethodInfo` reachable from `analyze_module` has
`is_async = False`: class bodies are scanned only for (non-async)
`ast.FunctionDef` nodes, and the `is_async` computation on a collected
node always yields `False`. -/
theorem analyze_module_methods_not_async
    (nm : String) (body : List PyStmt) (c : String × ClassInfo)
    (m : String × MethodInfo)
    (hc : c ∈ (analyzeModuleAst nm body).classes)
    (hm : m ∈ c.2.methods) :
    m.2.is_async = false := by
  simp only [analyzeModuleAst, List.mem_filterMap] at hc
  obtain ⟨np, _, hsel⟩ := hc
  cases hn : np.1 with
  | stmt s =>
    cases s with
    | classDef n b =>
      rw [classSel, hn] at hsel
      simp only [Option.some.injEq] at hsel
      subst hsel
      exact analyzeClass_not_async n b m hm
    | assign t v => rw [classSel, hn] at hsel; simp at hsel
    | funcDef n args b2 => rw [classSel, hn] at hsel; simp at hsel
    | asyncFuncDef n args b2 => rw [classSel, hn] at hsel; simp at hsel
    | pass => rw [classSel, hn] at hsel; simp at hsel
    | exprStmt e => rw [classSel, hn] at hsel; simp at hsel
    | ret e => rw [classSel, hn] at hsel; simp at hsel
  | mod b => rw [classSel, hn] at hsel; simp at hsel
  | expr e => rw [classSel, hn] at hsel; simp at hsel

/-- Witness for C10 at a concrete module: a class `C` with a single
synchronous method `m`. -/
theorem analyze_module_methods_not_async_witness :
    (("m", analyzeMethod (PyStmt.funcDef "m" ["self"] [PyStmt.pass])) :
        String × MethodInfo).2.is_async = false :=
  analyze_module_methods_not_async "__main__"
    [PyStmt.classDef "C" [PyStmt.funcDef "m" ["self"] [PyStmt.pass]]]
    ("C", analyzeClass "C" [PyStmt.funcDef "m" ["self"] [PyStmt.pass]])
    ("m", analyzeMethod (PyStmt.funcDef "m" ["self"] [PyStmt.pass]))
    (by simp [analyzeModuleAst, walkBFS, children, classSel])
    (by simp [analyzeClass, analyzeMethod])

/-- C3 (counterexample).  The `javascript → python` pair performs no
rewriting — its branch returns a fixed placeholder comment as a
*successful* result, contradicting the claim that a pair with no rewrite
rules fails with a typed error and never returns placeholder text. -/
theorem rule_based_js_to_py_placeholder :
    ruleBasedTranslate "javascript" "python" "let x = 1;" =
      .ok ("# Translation from JavaScript to Python is not yet implemented\n" ++
        "# Please implement this part of the code") := by
  rfl

/-- C3 (amended).  Every language pair other than `python → javascript`
and `javascript → python` fails with a `ValueError` whose message names
both languages (`javascript → python` instead returns a placeholder
comment as a successful result, see the counterexample). -/
theorem rule_based_unsupported_pair_error (s t code : String)
    (h1 : ¬(s = "python" ∧ t = "javascript"))
    (h2 : ¬(s = "javascript" ∧ t = "python")) :
    ruleBasedTranslate s t code =
      .error ("Unsupported language pair: " ++ s ++ " -> " ++ t) := by
  unfold ruleBasedTranslate
  rw [if_neg h1, if_neg h2]

/-- Witness for C3 (amended) at the concrete pair `python → ruby`. -/
theorem rule_based_unsupported_pair_error_witness :
    ruleBasedTranslate "python" "ruby" "x = 1" =
      .error ("Unsupported language pair: " ++ "python" ++ " -> " ++ "ruby") :=
  rule_based_unsupported_pair_error "python" "ruby" "x = 1"
    (by simp) (by simp)

/-- C7.  On the input `if x:\n    return 1` the renderer emits
`if x {{` — the replacement text `" {{"` appears in a plain (non-f)
string, so both braces are literal — but the dedent loop closes only one
level: the successfully rendered output has two block-open braces and one
block-close brace, violating the claimed balance invariant. -/
theorem rule_based_brace_imbalance :
    ruleBasedTranslate "python" "javascript" "if x:\n    return 1" =
      .ok "if x \x7b\x7b\n    return 1;\n\x7d"
    ∧ countChar '{' "if x \x7b\x7b\n    return 1;\n\x7d".toList = 2
    ∧ countChar '}' "if x \x7b\x7b\n    return 1;\n\x7d".toList = 1 := by
  exact ⟨rfl, by decide, by decide⟩

/-! ### Lemmas on lines and whitespace -/

theorem pySpace_space : pySpace ' ' = true := rfl

theorem pyLstrip_replicate_space (m : Nat) (l : List Char) :
    pyLstrip (List.replicate m ' ' ++ l) = pyLstrip l := by
  induction m with
  | zero => simp
  | succ k ih =>
    simp only [List.replicate_succ, List.cons_append, pyLstrip,
      List.dropWhile_cons, pySpace_space, if_true]
    exact ih

theorem takeWhile_nil_iff_dropWhile_self (p : Char → Bool) (l : List Char) :
    l.takeWhile p = [] ↔ l.dropWhile p = l := by
  cases l with
  | nil => simp
  | cons c rest =>
    by_cases h : p c
    · simp [List.takeWhile_cons, List.dropWhile_cons, h]
      intro heq
      have := congrArg List.length heq
      have hle := (List.dropWhile_sublist (l := rest) p).length_le
      simp at this
      omega
    · simp [List.takeWhile_cons, List.dropWhile_cons, h]

theorem pyLstrip_idem (l : List Char) : pyLstrip (pyLstrip l) = pyLstrip l := by
  induction l with
  | nil => rfl
  | cons c rest ih =>
    by_cases h : pySpace c
    · simpa [pyLstrip, List.dropWhile_cons, h] using ih
    · simp [pyLstrip, List.dropWhile_cons, h]

theorem leadingWs_pyLstrip (l : List Char) : leadingWs (pyLstrip l) = 0 := by
  have h := pyLstrip_idem l
  unfold leadingWs
  rw [(takeWhile_nil_iff_dropWhile_self pySpace (pyLstrip l)).mpr h]
  rfl

theorem leadingWs_eq_sub (l : List Char) :
    l.length - (pyLstrip l).length = leadingWs l := by
  induction l with
  | nil => rfl
  | cons c rest ih =>
    by_cases h : pySpace c
    · have hle := (List.dropWhile_sublist (l := rest) pySpace).length_le
      simp only [pyLstrip, List.dropWhile_cons, h, if_true, leadingWs,
        List.takeWhile_cons, List.length_cons] at *
      omega
    · simp [pyLstrip, List.dropWhile_cons, h, leadingWs, List.takeWhile_cons]

theorem leadingWs_replicate_append (m : Nat) (l : List Char) :
    leadingWs (List.replicate m ' ' ++ l) = m + leadingWs l := by
  induction m with
  | zero => simp
  | succ k ih =>
    simp only [List.replicate_succ, List.cons_append, leadingWs,
      List.takeWhile_cons, pySpace_space, if_true, List.length_cons] at *
    omega

theorem pyStrip_replicate_append (m : Nat) (l : List Char) :
    pyStrip (List.replicate m ' ' ++ l) = pyStrip l := by
  unfold pyStrip
  rw [pyLstrip_replicate_space]

theorem isBlank_replicate_append (m : Nat) (l : List Char) :
    isBlank (List.replicate m ' ' ++ l) = isBlank l := by
  unfold isBlank
  rw [pyStrip_replicate_append]

theorem pyStrip_pyLstrip (l : List Char) :
    pyStrip (pyLstrip l) = pyStrip l := by
  unfold pyStrip
  rw [pyLstrip_idem]

theorem isBlank_pyLstrip (l : List Char) :
    isBlank (pyLstrip l) = isBlank l := by
  unfold isBlank
  rw [pyStrip_pyLstrip]

theorem not_newline_mem_pyLstrip (l : List Char) (h : '\n' ∉ l) :
    '\n' ∉ pyLstrip l := fun hmem =>
  h ((List.dropWhile_sublist pySpace (l := l)).mem hmem)

/-! ### Lemmas about `splitNl` and `joinNl` -/

theorem splitNl_ne_nil (l : List Char) : splitNl l ≠ [] := by
  cases l with
  | nil => simp [splitNl]
  | cons c rest =>
    unfold splitNl
    by_cases h : c = '\n'
    · simp [h]
    · simp only [h, if_false]
      cases splitNl rest <;> simp

theorem mem_splitNl_no_newline (l : List Char) :
    ∀ x ∈ splitNl l, '\n' ∉ x := by
  induction l with
  | nil => simp [splitNl]
  | cons c rest ih =>
    unfold splitNl
    by_cases h : c = '\n'
    · simp only [h, if_true]
      intro x hx
      rcases List.mem_cons.mp hx with rfl | hx
      · simp
      · exact ih x hx
    · simp only [h, if_false]
      cases hs : splitNl rest with
      | nil => exact absurd hs (splitNl_ne_nil rest)
      | cons line lines =>
        intro x hx
        rcases List.mem_cons.mp hx with rfl | hx
        · intro hmem
          rcases List.mem_cons.mp hmem with heq | hmem
          · exact h heq.symm
          · exact ih line (hs ▸ List.mem_cons_self _ _) hmem
        · exact ih x (hs ▸ List.mem_cons_of_mem _ hx)

theorem splitNl_no_newline (l : List Char) (h : '\n' ∉ l) :
    splitNl l = [l] := by
  induction l with
  | nil => rfl
  | cons c rest ih =>
    have hc : c ≠ '\n' := fun heq => h (heq ▸ List.mem_cons_self _ _)
    have hrest : '\n' ∉ rest := fun hmem => h (List.mem_cons_of_mem _ hmem)
    unfold splitNl
    simp only [hc, if_false]
    rw [ih hrest]

theorem splitNl_append_newline (a b : List Char) (h : '\n' ∉ a) :
    splitNl (a ++ '\n' :: b) = a :: splitNl b := by
  induction a with
  | nil => simp [splitNl]
  | cons c a' ih =>
    have hc : c ≠ '\n' := fun heq => h (heq ▸ List.mem_cons_self _ _)
    have ha' : '\n' ∉ a' := fun hmem => h (List.mem_cons_of_mem _ hmem)
    simp only [List.cons_append, splitNl, hc, if_false]
    rw [List.append_eq, ih ha']

theorem splitNl_joinNl (ls : List (List Char)) (h1 : ls ≠ [])
    (h2 : ∀ x ∈ ls, '\n' ∉ x) : splitNl (joinNl ls) = ls := by
  induction ls with
  | nil => exact absurd rfl h1
  | cons l rest ih =>
    cases rest with
    | nil =>
      unfold joinNl
      exact splitNl_no_newline l (h2 l (List.mem_cons_self _ _))
    | cons l2 rest2 =>
      show splitNl (l ++ '\n' :: joinNl (l2 :: rest2)) = _
      rw [splitNl_append_newline l _ (h2 l (List.mem_cons_self _ _))]
      rw [ih (by simp) (fun x hx => h2 x (List.mem_cons_of_mem _ hx))]

/-! ### Idempotence of `_apply_indentation` at indent size 4 -/

theorem indentLine_blank (b size : Nat) (l : List Char) (h : isBlank l) :
    indentLine b size l = l := by
  simp [indentLine, h]

theorem indentLine_nonblank (b size : Nat) (l : List Char)
    (h : isBlank l = false) :
    indentLine b size l =
      (if leadingWs l ≥ b then
        List.replicate (b + (leadingWs l - b) / 4 * size) ' ' ++ pyLstrip l
      else List.replicate (leadingWs l) ' ' ++ pyLstrip l) := by
  rw [indentLine]
  simp only [h, if_false, Bool.false_eq_true]
  rw [leadingWs_eq_sub]

theorem isBlank_indentLine (b size : Nat) (l : List Char) :
    isBlank (indentLine b size l) = isBlank l := by
  by_cases h : isBlank l
  · rw [indentLine_blank _ _ _ h]
  · rw [indentLine_nonblank _ _ _ (by simpa using h)]
    by_cases hge : leadingWs l ≥ b <;>
      simp [hge, isBlank_replicate_append, isBlank_pyLstrip]

theorem indentLine_idem (b : Nat) (l : List Char) :
    indentLine b 4 (indentLine b 4 l) = indentLine b 4 l := by
  by_cases h : isBlank l
  · rw [indentLine_blank _ _ _ h, indentLine_blank _ _ _ h]
  · have hb : isBlank l = false := by simpa using h
    rw [indentLine_nonblank _ _ _ hb]
    by_cases hge : leadingWs l ≥ b
    · simp only [hge, if_true]
      set m := b + (leadingWs l - b) / 4 * 4 with hm
      have hout : isBlank (List.replicate m ' ' ++ pyLstrip l) = false := by
        rw [isBlank_replicate_append, isBlank_pyLstrip]; exact hb
      rw [indentLine_nonblank _ _ _ hout]
      have hlw : leadingWs (List.replicate m ' ' ++ pyLstrip l) = m := by
        rw [leadingWs_replicate_append, leadingWs_pyLstrip]
        omega
      rw [hlw]
      have hmge : m ≥ b := by omega
      simp only [hmge, if_true]
      rw [pyLstrip_replicate_space, pyLstrip_idem]
      have harith : b + (m - b) / 4 * 4 = m := by
        have : m - b = (leadingWs l - b) / 4 * 4 := by omega
        rw [this, Nat.mul_div_cancel _ (by norm_num)]
      rw [harith]
    · simp only [hge, if_false]
      set m := leadingWs l with hm
      have hout : isBlank (List.replicate m ' ' ++ pyLstrip l) = false := by
        rw [isBlank_replicate_append, isBlank_pyLstrip]; exact hb
      rw [indentLine_nonblank _ _ _ hout]
      have hlw : leadingWs (List.replicate m ' ' ++ pyLstrip l) = m := by
        rw [leadingWs_replicate_append, leadingWs_pyLstrip]
        omega
      rw [hlw]
      simp only [hge, if_false]
      rw [pyLstrip_replicate_space, pyLstrip_idem]

theorem baseIndent_map_indentLine (lines : List (List Char)) (b : Nat)
    (h : baseIndent lines = b) :
    baseIndent (lines.map (indentLine b 4)) = b := by
  induction lines with
  | nil => simpa [baseIndent] using h
  | cons l rest ih =>
    by_cases hb : isBlank l
    · rw [baseIndent, hb] at h
      simp only [List.map_cons, baseIndent, indentLine_blank _ _ _ hb, hb,
        if_true]
      exact ih h
    · have hbf : isBlank l = false := by simpa using hb
      rw [baseIndent, hbf] at h
      simp only [Bool.false_eq_true, if_false] at h
      simp only [List.map_cons, baseIndent,
        isBlank_indentLine b 4 l, hbf, Bool.false_eq_true, if_false]
      rw [indentLine_nonblank _ _ _ hbf]
      have hge : leadingWs l ≥ b := by omega
      simp only [hge, if_true]
      rw [leadingWs_replicate_append, leadingWs_pyLstrip]
      omega

theorem applyIndentationLines_idem (lines : List (List Char)) :
    applyIndentationLines (applyIndentationLines lines 4) 4 =
      applyIndentationLines lines 4 := by
  unfold applyIndentationLines
  rw [baseIndent_map_indentLine lines (baseIndent lines) rfl, List.map_map]
  apply List.map_congr_left
  intro l _
  exact indentLine_idem (baseIndent lines) l

theorem no_newline_indentLine (b size : Nat) (l : List Char)
    (h : '\n' ∉ l) : '\n' ∉ indentLine b size l := by
  by_cases hb : isBlank l
  · rw [indentLine_blank _ _ _ hb]; exact h
  · rw [indentLine_nonblank _ _ _ (by simpa using hb)]
    by_cases hge : leadingWs l ≥ b <;>
      simp [hge, List.mem_append, List.mem_replicate] <;>
      exact fun hmem => (not_newline_mem_pyLstrip l h) hmem

/-- C4 (amended).  The re-indentation pass alone is idempotent when the
profile's indent size is 4 (the unit the pass assumes the original text
uses): `_apply_indentation(_apply_indentation(t, 4), 4) =
_apply_indentation(t, 4)` for every text `t`. -/
theorem apply_indentation_idempotent_at_four (code : String) :
    applyIndentation (applyIndentation code 4) 4 =
      applyIndentation code 4 := by
  unfold applyIndentation
  have htl : (String.mk (joinNl
      (applyIndentationLines (splitNl code.toList) 4))).toList =
      joinNl (applyIndentationLines (splitNl code.toList) 4) := rfl
  rw [htl]
  rw [splitNl_joinNl _ ?h1 ?h2]
  · rw [applyIndentationLines_idem]
  case h1 =>
    unfold applyIndentationLines
    intro hnil
    exact splitNl_ne_nil code.toList (List.map_eq_nil_iff.mp hnil)
  case h2 =>
    unfold applyIndentationLines
    intro x hx
    rcases List.mem_map.mp hx with ⟨l, hl, rfl⟩
    exact no_newline_indentLine _ _ _ (mem_splitNl_no_newline _ l hl)

/-- C4 (counterexample).  The composed re-casing/re-indentation/re-quoting
pass is not idempotent: with profile indent size 2 (quote `double`, naming
`snake_case`), the text `a\n    b` maps to `a\n  b` after one
application but to `a\nb` after two — the second pass re-divides the
already-converted 2-space indent by the assumed original unit 4. -/
theorem apply_style_passes_not_idempotent :
    applyStylePasses
        (applyStylePasses "a\n    b"
          { indent_size := 2, quote_style := "double",
            naming_convention := "snake_case" })
        { indent_size := 2, quote_style := "double",
          naming_convention := "snake_case" } ≠
      applyStylePasses "a\n    b"
        { indent_size := 2, quote_style := "double",
          naming_convention := "snake_case" } := by
  decide

/-- C5 (counterexample).  With the configured default naming convention
`camelCase`, the source `Foo bar` scores snake_case 1, camelCase 0,
PascalCase 1 — a top-count tie — and the detector returns `snake_case`
(Python's `max` keeps the first key of the dict insertion order), not the
configured default as claimed. -/
theorem naming_tie_not_default :
    detectNamingConvention "camelCase" "Foo bar" = "snake_case" ∧
      ("snake_case" : String) ≠ "camelCase" := by
  exact ⟨by decide, by decide⟩

/-- C5 (amended).  Ties between top counts are broken by the fixed dict
order snake_case, camelCase, PascalCase — independent of the configured
default, which is returned only when no identifier survives filtering;
camelCase matches count double (two camelCase names outvote three
snake_case names). -/
theorem naming_vote_fixed_tiebreak :
    (∀ cfg : String, detectNamingConvention cfg "Foo bar" = "snake_case")
    ∧ (∀ cfg : String,
        detectNamingConvention cfg "fooBar bazQux alpha beta gamma" =
          "camelCase")
    ∧ (∀ cfg : String, detectNamingConvention cfg "" = cfg) := by
  exact ⟨fun cfg => rfl, fun cfg => rfl, fun cfg => rfl⟩

/-- C6 (counterexample).  With the configured default quote style
`single`, the source `'a' "b"` has one single-quoted and one
double-quoted literal — equal and nonzero — and the detector returns
`double`, not the configured default as claimed. -/
theorem quote_tie_not_default :
    detectQuoteStyle "single" "'a' \"b\"" = "double" ∧
      ("double" : String) ≠ "single" := by
  exact ⟨by decide, by decide⟩

/-- C6 (amended).  `single` wins exactly on a strictly greater count; an
equal nonzero count returns `double` (independent of the configured
default); the default is returned only when no literal of either kind is
found. -/
theorem quote_detection_tie_double :
    (∀ cfg : String, detectQuoteStyle cfg "'a' \"b\"" = "double")
    ∧ (∀ cfg : String, detectQuoteStyle cfg "'a' 'b' \"c\"" = "single")
    ∧ (∀ cfg : String, detectQuoteStyle cfg "abc" = cfg) := by
  exact ⟨fun cfg => rfl, fun cfg => rfl, fun cfg => rfl⟩

/-- C8.  On `)\n{` — a close-paren with the open-brace on the next
line — the detector returns `same_line`: the `\s*` of the "same line"
pattern `\)\s*{` also matches newlines, so every next-line occurrence is
counted in both patterns, `same_line >= new_line` always holds, and
`new_line` is unreachable (also shown on two next-line occurrences and no
same-line one). -/
theorem bracket_style_newline_unreachable :
    detectBracketStyle ")\n\x7b" = "same_line" ∧
      detectBracketStyle ")\n\x7b )\n\x7b" = "same_line" := by
  exact ⟨by decide, by decide⟩

/-- C2.  In `py_patterns` the *plain* comprehension rule
`\[(.*?) for (.*?) in (.*?)\]` is inserted *before* the filtered rule
`\[(.*?) for (.*?) in (.*?) if (.*?)\]`, and `translate_syntax` applies
the rules in dict insertion order; on `[x for x in xs if c]` the plain
rule therefore fires first — its lazy third group absorbs the filter text
(`xs if c`) up to the first `]` — producing `xs if c.map(x => x)`, and
the specific filter-then-map rule (which the claim says must fire,
yielding `xs.filter(x => c).map(x => x)`) never rewrites anything. -/
theorem filtered_comprehension_hits_plain_rule :
    translateSyntax "python" "[x for x in xs if c]" = "xs if c.map(x => x)"
    ∧ ("xs if c.map(x => x)" : String) ≠ "xs.filter(x => c).map(x => x)" := by
  exact ⟨by decide, by decide⟩

/-! ### Lemmas for the `_preprocess_javascript` pipeline -/

end CodeTranslator
